import Mathlib

/-!
Verification of the multipath packet-dispatch group (`dchan`): the Group
ranking/dispatch logic from the repository's Group file and the HttpChan
read/write pump logic from `dchan/httpchan.go`, shallowly embedded in Lean.
Durations are modelled as `Nat` nanoseconds, matching Go's `time.Duration`
values produced by the heartbeat stage (which are non-negative).
-/

set_option autoImplicit false

namespace Dchan

/-- One nanosecond count for a second, as in Go's `time.Second`. -/
def second : Nat := 1000000000

/-- `5 * time.Second`, the staleness threshold used by `findUsefulLocked`. -/
def fiveSeconds : Nat := 5 * second

/-- What `Group.findUsefulLocked` reads from a channel: the pair returned by
`ch.Latency()`, i.e. `(round_trip, since_last_commit)`. -/
structure ChanInfo where
  latency : Nat
  lastCommit : Nat
  deriving DecidableEq, Repr

/-- The `minLatency` update in `findUsefulLocked`:
`if minLatency > latency || minLatency == 0 { minLatency = latency }`
(note the sentinel: a running minimum of 0 counts as unset). -/
def goMin (cur lat : Nat) : Nat :=
  if cur > lat ∨ cur = 0 then lat else cur

/-- The `maxLatency` update in `findUsefulLocked`:
`if maxLatency < latency { maxLatency = latency }`. -/
def goMax (cur lat : Nat) : Nat :=
  if cur < lat then lat else cur

/-- `(idx, value)` pairs for a list, indices starting at `n`: the shape of
the `infos` list that `findUsefulLocked` accumulates when no channel is
skipped. -/
def indexedFrom (n : Nat) : List Nat → List (Nat × Nat)
  | [] => []
  | a :: as => (n, a) :: indexedFrom (n + 1) as

/-- The loop state of `Group.findUsefulLocked`: the running index `idx`, the
collected `infos` (pairs `(Idx, Latency)`), and the running min/max. -/
structure ScanSt where
  idx : Nat
  infos : List (Nat × Nat)
  minLatency : Nat
  maxLatency : Nat
  deriving DecidableEq, Repr

/-- One iteration of the channel-list loop in `Group.findUsefulLocked`:
channels with `lastCommit >= 5*time.Second` are skipped by `continue`
(note: the skip also skips `idx++`); otherwise `(idx, latency)` is appended
to `infos`, min/max are updated, and `idx` is incremented. -/
def scanStep (s : ScanSt) (ch : ChanInfo) : ScanSt :=
  if ch.lastCommit ≥ fiveSeconds then s
  else
    { idx := s.idx + 1
      infos := s.infos ++ [(s.idx, ch.latency)]
      minLatency := goMin s.minLatency ch.latency
      maxLatency := goMax s.maxLatency ch.latency }

/-- `Group.findUsefulLocked`, translated from the source: scan the channel
list accumulating survivors, then keep every collected info whose latency is
at most `(minLatency + maxLatency) / 2`, or everything when at most two
survivors were collected. -/
def findUsefulLocked (chans : List ChanInfo) : List Nat :=
  let s := chans.foldl scanStep ⟨0, [], 0, 0⟩
  let meanVal := (s.minLatency + s.maxLatency) / 2
  (s.infos.filter fun info => info.2 ≤ meanVal || s.infos.length ≤ 2).map Prod.fst

/-- Modelled from the spec: `util.EqualInts` (package `util`, not under the
sources given here). The spec says the signal is raised exactly when the new
useful set "differs from the prior set", so it is element-wise equality of
the two integer slices. -/
def EqualInts (a b : List Nat) : Bool := a == b

/-- The group state touched by `Group.updateUseful`: the channel list (as the
latency samples the ranking reads), the published `usefulChans` value, and
whether the 1-slot `onNewUsefulChan` channel currently holds a pending
signal. -/
structure GroupSt where
  chans : List ChanInfo
  useful : List Nat
  signalPending : Bool
  deriving DecidableEq, Repr

/-- `Group.updateUseful`, translated from the source: recompute the useful
set, read the old published value, store the new one, and, when the two
differ (`!util.EqualInts(useful, old)`), perform a non-blocking send into the
1-slot signal channel — the slot is full afterwards whether or not it
already was; when they are equal the slot is untouched. -/
def updateUseful (g : GroupSt) : GroupSt :=
  let useful := findUsefulLocked g.chans
  let old := g.useful
  { g with
    useful := useful
    signalPending := if EqualInts useful old then g.signalPending else true }

/-- The select-case array construction step of `Group.Send`: for each
`chanIdx` in the useful snapshot, read `g.selectCase[chanIdx]` from the
current template. A `chanIdx` outside the template is Go's index-out-of-range
panic, modelled as `none`. -/
def buildSelectCase (template : List Nat) : List Nat → Option (List Nat)
  | [] => some []
  | i :: rest =>
    match template[i]?, buildSelectCase template rest with
    | some c, some cs => some (c :: cs)
    | _, _ => none

/-- The retry loop of `Group.Send`: each attempt is a pair of the useful
snapshot taken under the read lock and the case index that `reflect.Select`
returned over the `len(useful)+1` cases. If the chosen case is the last one
(the `onNewUsefullCase` signal), `goto resend` retries with the next
attempt; otherwise the packet went to the channel at list position
`useful[chosen]`. `none` means every attempt ended on the signal (Send is
still blocked). -/
def sendLoop : List (List Nat × Nat) → Option Nat
  | [] => none
  | (useful, chosen) :: rest =>
    if chosen = useful.length then sendLoop rest
    else useful[chosen]?

/-- A character-list `needle` is an initial segment of `hay`. -/
def listStartsWith : List Char → List Char → Bool
  | [], _ => true
  | _ :: _, [] => false
  | a :: as, b :: bs => a == b && listStartsWith as bs

/-- `needle` occurs somewhere in `hay`. -/
def containsAux (needle : List Char) : List Char → Bool
  | [] => listStartsWith needle []
  | c :: cs => listStartsWith needle (c :: cs) || containsAux needle cs

/-- Go's `strings.Contains(hay, needle)`. -/
def goContains (hay needle : String) : Bool :=
  containsAux needle.toList hay.toList

/-- The error check at the bottom of `HttpChan.writeLoop`, translated from
the source: given the channel's current `exitError` and the error of the
write just performed, it returns the new `exitError` and whether the loop
keeps running. A nil error continues the loop; an error containing "closed"
breaks without recording; any other error is recorded (wrapped as
`"write error: %v"`) and breaks. -/
def writeErrCheck (exitError : Option String) (err : Option String) :
    Option String × Bool :=
  match err with
  | none => (exitError, true)
  | some msg =>
    if goContains msg "closed" then (exitError, false)
    else (some (String.append "write error: " msg), false)

/-- Packet type tags as seen by `HttpChan.onRecePacket`: the two heartbeat
tags, and every other tag (`default` branch) carried abstractly. -/
inductive PType where
  | heartbeat
  | heartbeatR
  | other (code : Nat)
  deriving DecidableEq, Repr

/-- The part of `packet.Packet` that `onRecePacket` inspects: the type tag
and the payload (a byte list). -/
structure GoPacket where
  ptype : PType
  payload : List Nat
  deriving DecidableEq, Repr

/-- Modelled from the spec: `packet.Packet.Reply` (package `packet`, not
under the sources given here). The spec says a heartbeat reply carries the
probe's payload verbatim and has type `HEARTBEAT_R`; the code calls
`p.Reply(p.Payload())`. -/
def reply (payload : List Nat) : GoPacket :=
  ⟨PType.heartbeatR, payload⟩

/-- The `case packet.HEARTBEAT` test of `onRecePacket`'s switch. -/
def isHB (p : GoPacket) : Bool :=
  match p.ptype with
  | PType.heartbeat => true
  | _ => false

/-- The `case packet.HEARTBEAT_R` test of `onRecePacket`'s switch. -/
def isHBR (p : GoPacket) : Bool :=
  match p.ptype with
  | PType.heartbeatR => true
  | _ => false

/-- The `default` branch test of `onRecePacket`'s switch: a data packet. -/
def isData (p : GoPacket) : Bool :=
  match p.ptype with
  | PType.other _ => true
  | _ => false

/-- The observable effects of one `HttpChan.onRecePacket` call: the batches
enqueued onto the channel's own `in` intake, the packets handed to
`heartBeat.Receive`, the batch delivered to `out` (`none` if the call bailed
out before reaching it), and the boolean the function returns. -/
structure RecvEffects where
  inQueued : List (List GoPacket)
  hbReceived : List GoPacket
  outBatch : Option (List GoPacket)
  ok : Bool
  deriving DecidableEq, Repr

/-- The packet loop of `HttpChan.onRecePacket`, translated from the source.
`flowClosed` models the flow state consulted by `SendSafe`: when the flow is
closed, `SendSafe` fails and the function returns `false` at that point.
(The per-packet `speed.Download` accounting is not modelled; no claim
mentions it.) The accumulators carry the `in`-intake batches so far, the
heartbeat-stage hand-offs so far, and the data `buffer`. -/
def onRecePacketGo (flowClosed : Bool) :
    List GoPacket → List (List GoPacket) → List GoPacket → List GoPacket →
    RecvEffects
  | [], inQ, hb, buffer =>
    if flowClosed then ⟨inQ, hb, none, false⟩
    else ⟨inQ, hb, some buffer, true⟩
  | p :: rest, inQ, hb, buffer =>
    match p.ptype with
    | PType.heartbeat =>
      if flowClosed then ⟨inQ, hb, none, false⟩
      else onRecePacketGo flowClosed rest (inQ ++ [[reply p.payload]]) hb buffer
    | PType.heartbeatR => onRecePacketGo flowClosed rest inQ (hb ++ [p]) buffer
    | PType.other _ => onRecePacketGo flowClosed rest inQ hb (buffer ++ [p])

/-- `HttpChan.onRecePacket`, translated from the source: classify each packet
of the unmarshalled frame (heartbeat → reply onto own `in`; heartbeat reply →
heartbeat stage; anything else → data buffer), then deliver the buffer —
possibly empty — to `out`. -/
def onRecePacket (flowClosed : Bool) (ps : List GoPacket) : RecvEffects :=
  onRecePacketGo flowClosed ps [] [] []

/-- The channel state touched by `HttpChan.Close`: the one-shot mark-exit
flag, whether the flow has been closed (cancelling the pumps and running
the callbacks registered with `AddOnClose`), whether the underlying
connection has been closed, and how many times the registered on-close
callbacks have run. `flow.MarkExit` and `flow.Close` live in the external
`flow` package; modelled from the spec: `MarkExit` succeeds only on the
first call ("guarded by a one-shot mark-exit flag"), and `flow.Close` runs
the on-close callbacks exactly once as part of closing. -/
structure ChanCloseSt where
  exited : Bool
  flowClosed : Bool
  connClosed : Bool
  callbackRuns : Nat
  deriving DecidableEq, Repr

/-- `HttpChan.Close`, translated from the source: `if !h.flow.MarkExit() {
return }`, then `h.flow.Close()` and `h.conn.Close()`. -/
def closeChan (s : ChanCloseSt) : ChanCloseSt :=
  if s.exited then s
  else
    { exited := true
      flowClosed := true
      connClosed := true
      callbackRuns := s.callbackRuns + 1 }

end Dchan

namespace Dchan

/-- Claim C1 (code evaluation at the failing input): with the channel list
`[stalled, live]` — position 0 stalled (`since_last_commit = 6s`), position 1
fresh — `findUsefulLocked` publishes `[0]`: because `continue` skips `idx++`,
the live channel is recorded under the survivor-relative index 0, which is
the stalled channel's position in the list, and the live channel's actual
position 1 never appears. -/
theorem claim_C1_code_eval :
    findUsefulLocked [⟨10000000, 6 * second⟩, ⟨10000000, 0⟩] = [0] ∧
    6 * second ≥ fiveSeconds ∧
    (0 : Nat) < fiveSeconds ∧
    ¬ (1 ∈ findUsefulLocked [⟨10000000, 6 * second⟩, ⟨10000000, 0⟩]) := by
  decide

/-- Claim C2 (counterexample): a group of two channels published
`useful = [0, 1]`; one channel is then removed, shrinking the template to a
single entry. Every published index was valid for the old length-2 list, yet
looking the stale index 1 up in the new template is out of range — Go's
`g.selectCase[chanIdx]` panics rather than retrying. -/
theorem claim_C2_counterexample :
    (∀ i ∈ [0, 1], i < 2) ∧ buildSelectCase [7] [0, 1] = none := by
  decide

/-- Claim C3 (counterexample): three fresh survivors with round trips
`0, 150, 200`. The spec's threshold is `(min + max) / 2 = (0 + 200) / 2 =
100`, so exactly the first survivor should be useful; but the code treats a
running `minLatency` of 0 as "unset" (`minLatency > latency || minLatency ==
0`), recomputes min as 150, gets threshold 175, and publishes `[0, 1]` even
though survivor 1's round trip 150 exceeds 100. -/
theorem claim_C3_counterexample :
    (∀ l ∈ [0, 150, 200], (0 : Nat) ≤ l) ∧
    (0 ∈ [0, 150, 200] ∧ (200 : Nat) ∈ [0, 150, 200]) ∧
    findUsefulLocked [⟨0, 0⟩, ⟨150, 0⟩, ⟨200, 0⟩] = [0, 1] ∧
    ¬ (150 ≤ (0 + 200) / 2) := by
  decide

/-- Length of an indexed list. -/
theorem indexedFrom_length (l : List Nat) :
    ∀ n, (indexedFrom n l).length = l.length := by
  induction l with
  | nil => intro n; rfl
  | cons a as ih => intro n; simp [indexedFrom, ih]

/-- The first components of an indexed list are consecutive indices. -/
theorem indexedFrom_map_fst (l : List Nat) :
    ∀ n, (indexedFrom n l).map Prod.fst = List.range' n l.length := by
  induction l with
  | nil => intro n; rfl
  | cons a as ih => intro n; simp [indexedFrom, List.range', ih]

/-- Away from the 0 sentinel, the running-minimum update is `min`. -/
theorem goMin_eq_min {a : Nat} (b : Nat) (ha : 0 < a) : goMin a b = min a b := by
  simp only [goMin]
  split <;> omega

/-- The running-maximum update is `max`. -/
theorem goMax_eq_max (a b : Nat) : goMax a b = max a b := by
  simp only [goMax]
  split <;> omega

/-- Folding the `minLatency` update over positive values from a positive
start is folding `min`. -/
theorem foldl_goMin_eq_min (ls : List Nat) :
    ∀ a : Nat, 0 < a → (∀ l ∈ ls, 0 < l) →
      ls.foldl goMin a = ls.foldl min a := by
  induction ls with
  | nil => intro a _ _; rfl
  | cons b ls ih =>
    intro a ha hls
    have hb : 0 < b := hls b (by simp)
    rw [List.foldl_cons, List.foldl_cons, goMin_eq_min b ha]
    exact ih (min a b) (by omega) (fun l hl => hls l (by simp [hl]))

/-- Folding the `maxLatency` update is folding `max`. -/
theorem foldl_goMax_eq_max (ls : List Nat) :
    ∀ a : Nat, ls.foldl goMax a = ls.foldl max a := by
  induction ls with
  | nil => intro a; rfl
  | cons b ls ih =>
    intro a
    rw [List.foldl_cons, List.foldl_cons, goMax_eq_max]
    exact ih (max a b)

/-- A `min`-fold lands on one of its inputs. -/
theorem foldl_min_mem (ls : List Nat) : ∀ a : Nat, ls.foldl min a ∈ a :: ls := by
  induction ls with
  | nil => intro a; simp
  | cons b ls ih =>
    intro a
    rw [List.foldl_cons]
    rcases List.mem_cons.mp (ih (min a b)) with h1 | h1
    · rcases min_choice a b with h2 | h2 <;> rw [h1, h2] <;> simp
    · simp [h1]

/-- A `min`-fold is a lower bound of its inputs. -/
theorem foldl_min_le (ls : List Nat) :
    ∀ a x : Nat, x ∈ a :: ls → ls.foldl min a ≤ x := by
  induction ls with
  | nil =>
    intro a x hx
    simp at hx
    simp [hx]
  | cons b ls ih =>
    intro a x hx
    rw [List.foldl_cons]
    rcases List.mem_cons.mp hx with h1 | h1
    · rw [h1]
      exact le_trans (ih (min a b) (min a b) (by simp)) (min_le_left a b)
    · rcases List.mem_cons.mp h1 with h2 | h2
      · rw [h2]
        exact le_trans (ih (min a b) (min a b) (by simp)) (min_le_right a b)
      · exact ih (min a b) x (by simp [h2])

/-- A `max`-fold lands on one of its inputs. -/
theorem foldl_max_mem (ls : List Nat) : ∀ a : Nat, ls.foldl max a ∈ a :: ls := by
  induction ls with
  | nil => intro a; simp
  | cons b ls ih =>
    intro a
    rw [List.foldl_cons]
    rcases List.mem_cons.mp (ih (max a b)) with h1 | h1
    · rcases max_choice a b with h2 | h2 <;> rw [h1, h2] <;> simp
    · simp [h1]

/-- A `max`-fold is an upper bound of its inputs. -/
theorem foldl_max_ge (ls : List Nat) :
    ∀ a x : Nat, x ∈ a :: ls → x ≤ ls.foldl max a := by
  induction ls with
  | nil =>
    intro a x hx
    simp at hx
    simp [hx]
  | cons b ls ih =>
    intro a x hx
    rw [List.foldl_cons]
    rcases List.mem_cons.mp hx with h1 | h1
    · rw [h1]
      exact le_trans (le_max_left a b) (ih (max a b) (max a b) (by simp))
    · rcases List.mem_cons.mp h1 with h2 | h2
      · rw [h2]
        exact le_trans (le_max_right a b) (ih (max a b) (max a b) (by simp))
      · exact ih (max a b) x (by simp [h2])

/-- On a channel list with no stalled channel, the `findUsefulLocked` scan
never takes the `continue`: it indexes every channel in order and folds the
min/max updates over the latencies. -/
theorem foldl_scanStep_fresh (chans : List ChanInfo) :
    ∀ s : ScanSt, (∀ c ∈ chans, c.lastCommit < fiveSeconds) →
      chans.foldl scanStep s =
        { idx := s.idx + chans.length
          infos := s.infos ++ indexedFrom s.idx (chans.map (·.latency))
          minLatency := (chans.map (·.latency)).foldl goMin s.minLatency
          maxLatency := (chans.map (·.latency)).foldl goMax s.maxLatency } := by
  induction chans with
  | nil =>
    intro s _
    simp [indexedFrom]
  | cons c cs ih =>
    intro s h
    have hc : ¬ (c.lastCommit ≥ fiveSeconds) := by
      have := h c (by simp)
      omega
    rw [List.foldl_cons]
    rw [show scanStep s c =
        ⟨s.idx + 1, s.infos ++ [(s.idx, c.latency)],
          goMin s.minLatency c.latency, goMax s.maxLatency c.latency⟩ from by
      simp [scanStep, hc]]
    rw [ih _ (fun x hx => h x (by simp [hx]))]
    simp only [ScanSt.mk.injEq, List.map_cons, indexedFrom, List.foldl_cons,
      List.length_cons, List.append_assoc, List.singleton_append]
    refine ⟨by omega, by trivial, by trivial, by trivial⟩

/-- Dropping a disjunct that is `false` from a latency filter. -/
theorem filter_or_bool (l : List (Nat × Nat)) (T : Nat) {b : Bool}
    (hb : b = false) :
    (l.filter fun p => decide (p.2 ≤ T) || b)
      = l.filter fun p => decide (p.2 ≤ T) := by
  subst hb
  simp

/-- A latency filter whose second disjunct is `true` keeps everything. -/
theorem filter_or_bool_true (l : List (Nat × Nat)) (T : Nat) {b : Bool}
    (hb : b = true) :
    (l.filter fun p => decide (p.2 ≤ T) || b) = l := by
  subst hb
  simp

/-- Claim C3 (amended): for more than two surviving channels whose round
trips are all positive (so that the 0-is-unset sentinel of the running
minimum never re-fires), `findUsefulLocked` publishes exactly the positions
whose round trip is at most `(min_rtt + max_rtt) / 2`, where `min_rtt` and
`max_rtt` are the minimum and maximum of the survivors' round trips. -/
theorem claim_C3_amended (chans : List ChanInfo) (mn mx : Nat)
    (hfresh : ∀ c ∈ chans, c.lastCommit < fiveSeconds)
    (hpos : ∀ c ∈ chans, 0 < c.latency)
    (hlen : 2 < chans.length)
    (hmnMem : mn ∈ chans.map (·.latency))
    (hmnLe : ∀ l ∈ chans.map (·.latency), mn ≤ l)
    (hmxMem : mx ∈ chans.map (·.latency))
    (hmxGe : ∀ l ∈ chans.map (·.latency), l ≤ mx) :
    findUsefulLocked chans =
      ((indexedFrom 0 (chans.map (·.latency))).filter
          fun p => p.2 ≤ (mn + mx) / 2).map Prod.fst := by
  have hscan := foldl_scanStep_fresh chans ⟨0, [], 0, 0⟩ hfresh
  have hpos' : ∀ l ∈ chans.map (·.latency), 0 < l := by
    intro l hl
    obtain ⟨c, hc, rfl⟩ := List.mem_map.mp hl
    exact hpos c hc
  obtain ⟨l0, ls, hcons⟩ : ∃ l0 ls, chans.map (·.latency) = l0 :: ls := by
    cases hml : chans.map (·.latency) with
    | nil =>
      have hc0 : chans.length = 0 := by simpa using congrArg List.length hml
      omega
    | cons l0 ls => exact ⟨l0, ls, rfl⟩
  have hmin : (chans.map (·.latency)).foldl goMin 0 = mn := by
    rw [hcons] at hmnMem hmnLe hpos' ⊢
    rw [List.foldl_cons]
    rw [show goMin 0 l0 = l0 from by simp [goMin]]
    rw [foldl_goMin_eq_min ls l0 (hpos' l0 (by simp))
        (fun x hx => hpos' x (by simp [hx]))]
    exact Nat.le_antisymm (foldl_min_le ls l0 mn hmnMem)
      (hmnLe _ (foldl_min_mem ls l0))
  have hmax : (chans.map (·.latency)).foldl goMax 0 = mx := by
    rw [hcons] at hmxMem hmxGe ⊢
    rw [List.foldl_cons]
    rw [show goMax 0 l0 = l0 from by
      simp only [goMax]
      split <;> omega]
    rw [foldl_goMax_eq_max]
    exact Nat.le_antisymm (hmxGe _ (foldl_max_mem ls l0))
      (foldl_max_ge ls l0 mx hmxMem)
  have hinfos : (chans.foldl scanStep ⟨0, [], 0, 0⟩).infos
      = indexedFrom 0 (chans.map (·.latency)) := by
    rw [hscan]
    simp
  have hminF : (chans.foldl scanStep ⟨0, [], 0, 0⟩).minLatency = mn := by
    rw [hscan]
    exact hmin
  have hmaxF : (chans.foldl scanStep ⟨0, [], 0, 0⟩).maxLatency = mx := by
    rw [hscan]
    exact hmax
  simp only [findUsefulLocked]
  rw [hinfos, hminF, hmaxF]
  have hnot : ¬ ((indexedFrom 0 (chans.map (·.latency))).length ≤ 2) := by
    rw [indexedFrom_length, List.length_map]
    omega
  rw [filter_or_bool _ _ (decide_eq_false hnot)]

/-- Claim C4: when the whole channel list survives (every channel fresh) and
holds at most two channels, the ranking keeps every position regardless of
the latencies. -/
theorem claim_C4 (chans : List ChanInfo)
    (hfresh : ∀ c ∈ chans, c.lastCommit < fiveSeconds)
    (hlen : chans.length ≤ 2) :
    findUsefulLocked chans = List.range chans.length := by
  have hscan := foldl_scanStep_fresh chans ⟨0, [], 0, 0⟩ hfresh
  have hinfos : (chans.foldl scanStep ⟨0, [], 0, 0⟩).infos
      = indexedFrom 0 (chans.map (·.latency)) := by
    rw [hscan]
    simp
  simp only [findUsefulLocked]
  rw [hinfos]
  have hle : (indexedFrom 0 (chans.map (·.latency))).length ≤ 2 := by
    rw [indexedFrom_length, List.length_map]
    omega
  rw [filter_or_bool_true _ _ (decide_eq_true hle)]
  rw [indexedFrom_map_fst, List.length_map, List.range_eq_range']

/-- Claim C3, witness: channels with round trips 10ms, 100ms, 200ms (all
fresh, in nanoseconds) give threshold 105ms and useful set `[0, 1]`. -/
theorem claim_C3_witness :
    findUsefulLocked [⟨10000000, 0⟩, ⟨100000000, 0⟩, ⟨200000000, 0⟩]
      = [0, 1] := by
  rw [claim_C3_amended [⟨10000000, 0⟩, ⟨100000000, 0⟩, ⟨200000000, 0⟩]
    10000000 200000000 (by decide) (by decide) (by decide) (by decide)
    (by decide) (by decide) (by decide)]
  decide

/-- Claim C4, witness: two fresh channels with round trips 10ms and 500ms
are both published. -/
theorem claim_C4_witness :
    findUsefulLocked [⟨10000000, 0⟩, ⟨500000000, 0⟩] = [0, 1] := by
  rw [claim_C4 [⟨10000000, 0⟩, ⟨500000000, 0⟩] (by decide) (by decide)]
  decide

/-- Claim C2 (amended): the snapshot-and-lookup step of `Send` stays in
bounds exactly when every published index is below the current template's
length — in that case the case array materialises with one send case per
useful index, and a wait that completes on the trailing signal case makes
`Send` retry; but a stale index at or beyond the template length makes
`g.selectCase[chanIdx]` out of range (a Go runtime panic), so the claimed
tolerance does not cover indices that were valid only for the old, longer
list. -/
theorem claim_C2_amended (template useful : List Nat) :
    ((∀ i ∈ useful, i < template.length) →
      ∃ cs, buildSelectCase template useful = some cs ∧
        cs.length = useful.length) ∧
    ((∃ i ∈ useful, template.length ≤ i) →
      buildSelectCase template useful = none) ∧
    (∀ rest : List (List Nat × Nat),
      sendLoop ((useful, useful.length) :: rest) = sendLoop rest) := by
  refine ⟨?_, ?_, ?_⟩
  · induction useful with
    | nil => intro _; exact ⟨[], rfl, rfl⟩
    | cons i rest ih =>
      intro h
      obtain ⟨c, hc⟩ : ∃ c, template[i]? = some c := by
        have hi := h i (by simp)
        exact ⟨_, List.getElem?_eq_getElem hi⟩
      obtain ⟨cs, hcs, hlen⟩ := ih (fun j hj => h j (by simp [hj]))
      exact ⟨c :: cs, by simp [buildSelectCase, hc, hcs], by simp [hlen]⟩
  · induction useful with
    | nil => intro h; simp at h
    | cons i rest ih =>
      intro h
      rcases h with ⟨j, hj, hjlen⟩
      rcases List.mem_cons.mp hj with rfl | hjrest
      · have hnone : template[j]? = none := List.getElem?_eq_none hjlen
        cases hbs : buildSelectCase template rest <;>
          simp [buildSelectCase, hnone, hbs]
      · have hrest := ih ⟨j, hjrest, hjlen⟩
        cases htc : template.get? i <;>
          simp [buildSelectCase, htc, hrest]
  · intro rest
    simp [sendLoop]

/-- Claim C2, witness: with a two-entry template every index of the
published set `[0, 1]` is in bounds and the case array materialises. -/
theorem claim_C2_witness :
    ∃ cs, buildSelectCase [7, 9] [0, 1] = some cs ∧ cs.length = 2 :=
  (claim_C2_amended [7, 9] [0, 1]).1 (by decide)

/-- Claim C5: whenever the `Send` retry loop returns a channel, that channel
index was read out of the useful snapshot of the very attempt that
completed (hence was present in the snapshot used to build that case
array); and an attempt that completes on the trailing signal case does not
return but falls through to the next attempt. -/
theorem claim_C5 :
    (∀ (attempts : List (List Nat × Nat)) (c : Nat),
      sendLoop attempts = some c →
      ∃ p ∈ attempts, p.2 < p.1.length ∧ p.1[p.2]? = some c ∧ c ∈ p.1) ∧
    (∀ (useful : List Nat) (rest : List (List Nat × Nat)),
      sendLoop ((useful, useful.length) :: rest) = sendLoop rest) := by
  constructor
  · intro attempts
    induction attempts with
    | nil =>
      intro c hc
      simp [sendLoop] at hc
    | cons a rest ih =>
      obtain ⟨useful, chosen⟩ := a
      intro c hc
      by_cases h : chosen = useful.length
      · rw [show sendLoop ((useful, chosen) :: rest) = sendLoop rest from by
          simp [sendLoop, h]] at hc
        obtain ⟨p, hp, hrest⟩ := ih c hc
        exact ⟨p, by simp [hp], hrest⟩
      · have hc2 : useful[chosen]? = some c := by
          simpa [sendLoop, h] using hc
        have hlt : chosen < useful.length := by
          by_contra hge
          rw [List.getElem?_eq_none (Nat.le_of_not_lt hge)] at hc2
          exact Option.noConfusion hc2
        exact ⟨(useful, chosen), by simp, hlt, hc2, List.getElem?_mem hc2⟩
  · intro useful rest
    simp [sendLoop]

/-- Claim C5, witness: the first attempt completes on the signal case (index
2 of a 2-element snapshot) and retries; the second attempt returns channel
5, which is in that attempt's snapshot. -/
theorem claim_C5_witness :
    ∃ p ∈ [(([3, 7] : List Nat), (2 : Nat)), (([5] : List Nat), (0 : Nat))],
      p.2 < p.1.length ∧ p.1[p.2]? = some 5 ∧ 5 ∈ p.1 :=
  claim_C5.1 [([3, 7], 2), ([5], 0)] 5 (by decide)

/-- Claim C6: `updateUseful` always publishes the freshly computed useful
set and leaves the channel list alone; the one-slot signal is pending
afterwards exactly when it already was or the new set differs in content
from the previously published one — so a recompute with an unchanged set
leaves the slot as it was, and an already-pending signal stays pending. -/
theorem claim_C6 (g : GroupSt) :
    (updateUseful g).useful = findUsefulLocked g.chans ∧
    (updateUseful g).chans = g.chans ∧
    ((updateUseful g).signalPending = true ↔
      (g.signalPending = true ∨ findUsefulLocked g.chans ≠ g.useful)) ∧
    (findUsefulLocked g.chans = g.useful →
      (updateUseful g).signalPending = g.signalPending) ∧
    (g.signalPending = true → (updateUseful g).signalPending = true) := by
  by_cases h : findUsefulLocked g.chans = g.useful
  · simp [updateUseful, EqualInts, h]
  · have hbeq : EqualInts (findUsefulLocked g.chans) g.useful = false := by
      simp [EqualInts, h]
    simp [updateUseful, hbeq, h]

/-- Claim C6, witness: a recompute that reproduces the published set `[0]`
does not raise the signal. -/
theorem claim_C6_witness :
    (updateUseful ⟨[⟨10, 0⟩], [0], false⟩).signalPending = false := by
  have h := (claim_C6 ⟨[⟨10, 0⟩], [0], false⟩).2.2.2.1 (by decide)
  simpa using h

/-- Claim C7: the write pump's error check continues the loop on a nil
error; on an error whose message contains "closed" it exits without
touching `exitError`; on any other error it records the error (wrapped as
`write error: ...`) in `exitError` and exits. -/
theorem claim_C7 (e : Option String) (msg : String) :
    writeErrCheck e none = (e, true) ∧
    (goContains msg "closed" = true → writeErrCheck e (some msg) = (e, false)) ∧
    (goContains msg "closed" = false →
      writeErrCheck e (some msg)
        = (some (String.append "write error: " msg), false)) := by
  refine ⟨rfl, ?_, ?_⟩
  · intro h
    simp [writeErrCheck, h]
  · intro h
    simp [writeErrCheck, h]

/-- Claim C7, witness: a "closed" error exits without recording; a reset
error is recorded and exits. -/
theorem claim_C7_witness :
    writeErrCheck none (some "use of closed network connection")
      = (none, false) ∧
    writeErrCheck none (some "connection reset by peer")
      = (some (String.append "write error: " "connection reset by peer"),
          false) := by
  constructor
  · exact (claim_C7 none "use of closed network connection").2.1 (by decide)
  · exact (claim_C7 none "connection reset by peer").2.2 (by decide)

/-- With the flow open, the `onRecePacket` loop classifies each packet and
reaches the final `out` delivery: one reply batch per heartbeat onto the
`in` intake, heartbeat replies to the heartbeat stage, data into the
buffer. -/
theorem onRecePacketGo_open (ps : List GoPacket) :
    ∀ (inQ : List (List GoPacket)) (hb buffer : List GoPacket),
    onRecePacketGo false ps inQ hb buffer =
      ⟨inQ ++ (ps.filter isHB).map (fun p => [reply p.payload]),
        hb ++ ps.filter isHBR,
        some (buffer ++ ps.filter isData),
        true⟩ := by
  induction ps with
  | nil =>
    intro inQ hb buffer
    simp [onRecePacketGo]
  | cons p rest ih =>
    intro inQ hb buffer
    rcases hp : p.ptype with _ | _ | code <;>
      simp [onRecePacketGo, hp, ih, isHB, isHBR, isData, List.filter_cons,
        List.append_assoc]

/-- Claim C8: for every verified, unmarshalled frame processed with the flow
open, the batches enqueued onto the channel's own `in` intake are exactly
one `HEARTBEAT_R` reply per received `HEARTBEAT`, carrying its payload
verbatim, in order; the packets handed to the heartbeat stage are exactly
the received `HEARTBEAT_R` packets; no other packet produces a reply. -/
theorem claim_C8 (ps : List GoPacket) :
    (onRecePacket false ps).inQueued
      = (ps.filter isHB).map (fun p => [reply p.payload]) ∧
    (onRecePacket false ps).hbReceived = ps.filter isHBR ∧
    (onRecePacket false ps).ok = true := by
  rw [onRecePacket, onRecePacketGo_open]
  simp

/-- Claim C10: a frame processed to completion delivers exactly one batch to
`out`, holding precisely the frame's data packets in their original order;
a frame with no data packet still delivers one (empty) batch. -/
theorem claim_C10 (ps : List GoPacket) :
    ((onRecePacket false ps).outBatch = some (ps.filter isData) ∧
      (onRecePacket false ps).ok = true) ∧
    ((∀ p ∈ ps, isData p = false) → (onRecePacket false ps).outBatch = some []) := by
  constructor
  · rw [onRecePacket, onRecePacketGo_open]
    simp
  · intro h
    rw [onRecePacket, onRecePacketGo_open]
    simp
    intro a ha
    simpa using h a ha

/-- Claim C10, witness: a frame holding only heartbeat traffic still
delivers a batch to `out`, and it is empty. -/
theorem claim_C10_witness :
    (onRecePacket false
        [⟨PType.heartbeat, [1]⟩, ⟨PType.heartbeatR, [2]⟩]).outBatch
      = some [] :=
  (claim_C10 [⟨PType.heartbeat, [1]⟩, ⟨PType.heartbeatR, [2]⟩]).2 (by decide)

/-- Claim C9: from a fresh channel state, any number `n ≥ 1` of `Close`
calls performs the tear-down (exit marked, flow closed, connection closed)
and runs the on-close callbacks exactly once; every call on an
already-exited state returns without effect. -/
theorem claim_C9 (n : Nat) (hn : 1 ≤ n) :
    closeChan^[n] ⟨false, false, false, 0⟩ = ⟨true, true, true, 1⟩ ∧
    (∀ s : ChanCloseSt, s.exited = true → closeChan s = s) := by
  constructor
  · obtain ⟨m, rfl⟩ : ∃ m, n = m + 1 := ⟨n - 1, by omega⟩
    rw [Function.iterate_succ_apply]
    rw [show closeChan ⟨false, false, false, 0⟩ = ⟨true, true, true, 1⟩ from by
      simp [closeChan]]
    exact Function.iterate_fixed (by simp [closeChan]) m
  · intro s hs
    simp [closeChan, hs]

/-- Claim C9, witness: three consecutive `Close` calls tear down once. -/
theorem claim_C9_witness :
    closeChan^[3] ⟨false, false, false, 0⟩ = ⟨true, true, true, 1⟩ :=
  (claim_C9 3 (by decide)).1

end Dchan
